import Mathlib

/-!
Verification of the rendering contract module (`widgets.rs`).

The module under verification declares the render capabilities (`Widget`,
`StatefulWidget`, `Render`, `RenderWithState`, `RenderMut`), the transient
`Context` wrapper, and the adapter implementations: the blanket
`impl<R: Render> Widget for &R`, the `impl<R: Render> Render for Option<R>`
adapter, and the text bridges `impl Widget/Render for &str` and `String`.

The drawing surface (`Buffer`), the rectangle type (`Rect`) and the style
type (`Style`) are external collaborators of this module; they are modelled
from the spec where their behaviour matters (see `Buffer.set_string`).

Rust's `&mut` state is embedded by explicit state passing: a Rust method
`fn render(&self, area: Rect, ctx: &mut Context)` becomes a Lean function
taking the drawable's value and a `Context` and returning the new `Context`.
Trait methods with default bodies are embedded as the default bodies
themselves; a trait implementation is embedded as the function its body
denotes. Rust `u16` coordinates are modelled as `Nat`: no operation here
can overflow `u16` in a way any claim depends on, because all writes are
clipped to the buffer's own area.
-/

/-- Rectangle collaborator: position plus size, in cell units
(`ratatui::layout::Rect`). -/
structure Rect where
  x : Nat
  y : Nat
  width : Nat
  height : Nat
deriving DecidableEq

/-- Style collaborator, kept abstract except for decidable equality and a
default value; rendering only ever passes it through to written cells. -/
structure Style where
  fg : Option Nat
  bg : Option Nat
deriving DecidableEq

/-- Default style (`Style::default()`). -/
def Style.default : Style := ⟨none, none⟩

/-- One character cell of the surface: a symbol and its style. -/
structure Cell where
  symbol : Char
  style : Style
deriving DecidableEq

/-- The cell an empty buffer position holds. -/
def Cell.default : Cell := ⟨' ', Style.default⟩

/-- Surface collaborator (`ratatui::buffer::Buffer`): an area and a
row-major list of cells. -/
structure Buffer where
  area : Rect
  content : List Cell
deriving DecidableEq

/-- Row-major index of coordinate `(x, y)` inside the buffer's area. -/
def Buffer.index_of (buf : Buffer) (x y : Nat) : Nat :=
  (y - buf.area.y) * buf.area.width + (x - buf.area.x)

/-- Coordinate `(x, y)` lies inside the buffer's own area. -/
def Buffer.inBounds (buf : Buffer) (x y : Nat) : Prop :=
  buf.area.x ≤ x ∧ x < buf.area.x + buf.area.width ∧
    buf.area.y ≤ y ∧ y < buf.area.y + buf.area.height

instance (buf : Buffer) (x y : Nat) : Decidable (buf.inBounds x y) := by
  unfold Buffer.inBounds
  infer_instance

/-- A buffer is well formed when its content has exactly one cell per
coordinate of its area. -/
def Buffer.wf (buf : Buffer) : Prop :=
  buf.content.length = buf.area.width * buf.area.height

instance (buf : Buffer) : Decidable buf.wf := by
  unfold Buffer.wf
  infer_instance

/-- Write one cell at `(x, y)` unconditionally (list update; out-of-range
indices leave the list unchanged). -/
def Buffer.set (buf : Buffer) (x y : Nat) (c : Char) (style : Style) : Buffer :=
  { buf with content := buf.content.set (buf.index_of x y) ⟨c, style⟩ }

/-- Bounds-checked single-cell write: the write lands only when `(x, y)`
is inside the buffer's area, otherwise it is silently dropped. -/
def Buffer.setClip (buf : Buffer) (x y : Nat) (c : Char) (style : Style) : Buffer :=
  if buf.inBounds x y then buf.set x y c style else buf

/-- Modelled from the spec: the Surface collaborator's bounds-checked
"write text at position with style" operation (`Buffer::set_string`), which
is external to the module under verification. The spec defines writes
outside the drawing surface's bounds as silent clipping (dropped), never
errors; the text is laid out left to right on the single row `y`, one cell
per character, never wrapping onto another row. -/
def Buffer.set_string (buf : Buffer) (x y : Nat) (s : List Char) (style : Style) : Buffer :=
  match s with
  | [] => buf
  | c :: rest => (buf.setClip x y c style).set_string (x + 1) y rest style

/-- Read the cell at `(x, y)` (default cell when out of range). -/
def Buffer.get (buf : Buffer) (x y : Nat) : Cell :=
  buf.content.getD (buf.index_of x y) Cell.default

/-- The transient render context (`struct Context<'a>`), bundling the
mutable borrow of the buffer; embedded as a value passed and returned. -/
structure Context where
  buffer : Buffer
deriving DecidableEq

/-- `Context::from_buffer`. -/
def Context.from_buffer (buffer : Buffer) : Context := ⟨buffer⟩

/-- The default body of `Render::render` (the trait declares
`fn render(&self, area: Rect, ctx: &mut Context) {}`): it does nothing. -/
def Render.renderDefault (area : Rect) (ctx : Context) : Context := ctx

/-- The default body of `RenderWithState::render` (declared
`fn render(&self, area: Rect, ctx: &mut Context, state: &mut Self::State) {}`):
it does nothing to either the context or the state. -/
def RenderWithState.renderDefault {σ : Type} (area : Rect) (ctx : Context) (state : σ) :
    Context × σ := (ctx, state)

/-- The default body of `RenderMut::render_mut` (declared
`fn render_mut(&mut self, area: Rect, ctx: &mut Context) {}`): it does
nothing to either the drawable or the context. -/
def RenderMut.renderMutDefault {α : Type} (w : α) (area : Rect) (ctx : Context) :
    α × Context := (w, ctx)

/-- `impl Render for &str`: writes the string at the region's position with
the default style via `ctx.buffer.set_string(area.x, area.y, self, Style::default())`. -/
def strRender (s : List Char) (area : Rect) (ctx : Context) : Context :=
  ⟨ctx.buffer.set_string area.x area.y s Style.default⟩

/-- `impl Render for String`: same body as the `&str` implementation. -/
def stringRender (s : List Char) (area : Rect) (ctx : Context) : Context :=
  ⟨ctx.buffer.set_string area.x area.y s Style.default⟩

/-- The blanket `impl<R: Render> Widget for &R`: wraps the buffer in a
fresh context and delegates to `Render::render`. A `Render` instance for a
type `α` is embedded as a function `α → Rect → Context → Context`. -/
def widgetOfRender {α : Type} (render : α → Rect → Context → Context)
    (w : α) (area : Rect) (buf : Buffer) : Buffer :=
  (render w area (Context.from_buffer buf)).buffer

/-- `impl Widget for &str`: wraps the buffer in a context and delegates to
the `Render` implementation for `&str`. -/
def strWidget (s : List Char) (area : Rect) (buf : Buffer) : Buffer :=
  (strRender s area (Context.from_buffer buf)).buffer

/-- `impl Widget for String`: wraps the buffer in a context and delegates
to the `Render` implementation for `String`. -/
def stringWidget (s : List Char) (area : Rect) (buf : Buffer) : Buffer :=
  (stringRender s area (Context.from_buffer buf)).buffer

/-- `impl<R: Render> Render for Option<R>`: delegates to the contained
drawable's render when present, does nothing when absent. -/
def optionRender {α : Type} (render : α → Rect → Context → Context)
    (o : Option α) (area : Rect) (ctx : Context) : Context :=
  match o with
  | some widget => render widget area ctx
  | none => ctx

/-! Supporting lemmas about the modelled surface operations. -/

lemma Buffer.inBounds_set {buf : Buffer} {x y c st x' y'} :
    (buf.set x y c st).inBounds x' y' ↔ buf.inBounds x' y' := Iff.rfl

lemma Buffer.area_setClip {buf : Buffer} {x y c st} :
    (buf.setClip x y c st).area = buf.area := by
  unfold Buffer.setClip
  split <;> rfl

lemma Buffer.inBounds_setClip {buf : Buffer} {x y c st x' y'} :
    (buf.setClip x y c st).inBounds x' y' ↔ buf.inBounds x' y' := by
  unfold Buffer.setClip
  split <;> exact Iff.rfl

lemma Buffer.wf_set {buf : Buffer} {x y c st} (h : buf.wf) : (buf.set x y c st).wf := by
  unfold Buffer.wf Buffer.set
  simpa [List.length_set] using h

lemma Buffer.wf_setClip {buf : Buffer} {x y c st} (h : buf.wf) : (buf.setClip x y c st).wf := by
  unfold Buffer.setClip
  split
  · exact Buffer.wf_set h
  · exact h

lemma Buffer.area_set_string {y st} :
    ∀ (s : List Char) (x : Nat) (buf : Buffer), (buf.set_string x y s st).area = buf.area := by
  intro s
  induction s with
  | nil => intro x buf; rfl
  | cons c rest ih =>
      intro x buf
      rw [Buffer.set_string, ih]
      exact Buffer.area_setClip

lemma Buffer.length_set_string {y st} :
    ∀ (s : List Char) (x : Nat) (buf : Buffer),
      (buf.set_string x y s st).content.length = buf.content.length := by
  intro s
  induction s with
  | nil => intro x buf; rfl
  | cons c rest ih =>
      intro x buf
      rw [Buffer.set_string, ih]
      unfold Buffer.setClip
      split
      · exact List.length_set ..
      · rfl

lemma Buffer.index_of_inj {buf : Buffer} {x y x' y' : Nat}
    (h1 : buf.inBounds x y) (h2 : buf.inBounds x' y')
    (he : buf.index_of x y = buf.index_of x' y') : x = x' ∧ y = y' := by
  obtain ⟨a1, a2, a3, a4⟩ := h1
  obtain ⟨b1, b2, b3, b4⟩ := h2
  unfold Buffer.index_of at he
  have hw : 0 < buf.area.width := by omega
  have m1 : ((y - buf.area.y) * buf.area.width + (x - buf.area.x)) % buf.area.width
      = x - buf.area.x := by
    rw [Nat.add_comm, Nat.add_mul_mod_self_right, Nat.mod_eq_of_lt (by omega)]
  have m2 : ((y' - buf.area.y) * buf.area.width + (x' - buf.area.x)) % buf.area.width
      = x' - buf.area.x := by
    rw [Nat.add_comm, Nat.add_mul_mod_self_right, Nat.mod_eq_of_lt (by omega)]
  have hx : x - buf.area.x = x' - buf.area.x := by rw [← m1, ← m2, he]
  have hxx : x = x' := by omega
  subst hxx
  have he2 : (y - buf.area.y) * buf.area.width = (y' - buf.area.y) * buf.area.width := by
    omega
  have hyy : y - buf.area.y = y' - buf.area.y :=
    Nat.eq_of_mul_eq_mul_right hw he2
  exact ⟨rfl, by omega⟩

lemma Buffer.index_of_lt_length {buf : Buffer} {x y : Nat}
    (hwf : buf.wf) (h : buf.inBounds x y) : buf.index_of x y < buf.content.length := by
  obtain ⟨a1, a2, a3, a4⟩ := h
  unfold Buffer.wf at hwf
  unfold Buffer.index_of
  rw [hwf]
  calc (y - buf.area.y) * buf.area.width + (x - buf.area.x)
      < (y - buf.area.y) * buf.area.width + buf.area.width := by omega
    _ = ((y - buf.area.y) + 1) * buf.area.width := by ring
    _ ≤ buf.area.height * buf.area.width := Nat.mul_le_mul_right _ (by omega)
    _ = buf.area.width * buf.area.height := Nat.mul_comm ..

lemma Buffer.get_set_ne {buf : Buffer} {x y c st x' y'}
    (h1 : buf.inBounds x y) (h2 : buf.inBounds x' y')
    (hne : ¬(x = x' ∧ y = y')) : (buf.set x y c st).get x' y' = buf.get x' y' := by
  have hidx : buf.index_of x y ≠ buf.index_of x' y' :=
    fun h => hne (Buffer.index_of_inj h1 h2 h)
  show (buf.content.set (buf.index_of x y) ⟨c, st⟩).getD (buf.index_of x' y') Cell.default
      = buf.content.getD (buf.index_of x' y') Cell.default
  simp only [List.getD_eq_getElem?_getD]
  rw [List.getElem?_set_ne hidx]

lemma Buffer.get_setClip_ne {buf : Buffer} {x y c st x' y'}
    (h2 : buf.inBounds x' y')
    (hne : ¬(x = x' ∧ y = y')) : (buf.setClip x y c st).get x' y' = buf.get x' y' := by
  unfold Buffer.setClip
  split
  · exact Buffer.get_set_ne (by assumption) h2 hne
  · rfl

lemma Buffer.get_set_self {buf : Buffer} {x y c st}
    (hwf : buf.wf) (h : buf.inBounds x y) : (buf.set x y c st).get x y = ⟨c, st⟩ := by
  show (buf.content.set (buf.index_of x y) ⟨c, st⟩).getD (buf.index_of x y) Cell.default
      = ⟨c, st⟩
  simp only [List.getD_eq_getElem?_getD]
  rw [List.getElem?_set_self (Buffer.index_of_lt_length hwf h)]
  rfl

lemma Buffer.get_setClip_self {buf : Buffer} {x y c st}
    (hwf : buf.wf) (h : buf.inBounds x y) : (buf.setClip x y c st).get x y = ⟨c, st⟩ := by
  unfold Buffer.setClip
  rw [if_pos h]
  exact Buffer.get_set_self hwf h

lemma Buffer.get_set_string_notouch {y x' y' : Nat} {st : Style} :
    ∀ (s : List Char) (x : Nat) (buf : Buffer),
      buf.inBounds x' y' → (y' ≠ y ∨ x' < x ∨ x + s.length ≤ x') →
      (buf.set_string x y s st).get x' y' = buf.get x' y' := by
  intro s
  induction s with
  | nil => intro x buf _ _; rfl
  | cons c rest ih =>
      intro x buf hin hcond
      simp only [List.length_cons] at hcond
      rw [Buffer.set_string]
      rw [ih (x + 1) _ (Buffer.inBounds_setClip.mpr hin)
        (by rcases hcond with h | h | h
            · exact Or.inl h
            · exact Or.inr (Or.inl (by omega))
            · exact Or.inr (Or.inr (by omega)))]
      exact Buffer.get_setClip_ne hin (by rintro ⟨hx, hy⟩; rcases hcond with h | h | h <;> omega)

lemma Buffer.get_set_string_hit {y : Nat} {st' : Style} :
    ∀ (s : List Char) (x k : Nat) (buf : Buffer),
      buf.wf → buf.inBounds (x + k) y → ∀ (hk : k < s.length),
      (buf.set_string x y s st').get (x + k) y = ⟨s.get ⟨k, hk⟩, st'⟩ := by
  intro s
  induction s with
  | nil => intro x k buf _ _ hk; exact absurd hk (by simp)
  | cons c rest ih =>
      intro x k buf hwf hin hk
      rw [Buffer.set_string]
      match k with
      | 0 =>
          rw [Buffer.get_set_string_notouch rest (x + 1) _
            (Buffer.inBounds_setClip.mpr hin) (Or.inr (Or.inl (by omega)))]
          have hin0 : buf.inBounds x y := by simpa using hin
          have : (buf.setClip x y c st').get (x + 0) y = ⟨c, st'⟩ := by
            simpa using Buffer.get_setClip_self hwf hin0
          exact this
      | k + 1 =>
          have hx : x + (k + 1) = (x + 1) + k := by omega
          rw [hx]
          rw [ih (x + 1) k _ (Buffer.wf_setClip hwf)
            (Buffer.inBounds_setClip.mpr (by rw [← hx]; exact hin))
            (by simpa using hk)]
          rfl

lemma Buffer.set_string_out_of_rows {buf : Buffer} {y : Nat} {st' : Style}
    (hy : y < buf.area.y ∨ buf.area.y + buf.area.height ≤ y) :
    ∀ (s : List Char) (x : Nat), buf.set_string x y s st' = buf := by
  intro s
  induction s with
  | nil => intro x; rfl
  | cons c rest ih =>
      intro x
      rw [Buffer.set_string]
      have hclip : buf.setClip x y c st' = buf := by
        unfold Buffer.setClip
        rw [if_neg]
        rintro ⟨_, _, h3, h4⟩
        omega
      rw [hclip, ih]

lemma Buffer.setClip_comm {buf : Buffer} {x x' y : Nat} {c c' : Char} {st st' : Style}
    (hne : x ≠ x') :
    (buf.setClip x y c st).setClip x' y c' st' = (buf.setClip x' y c' st').setClip x y c st := by
  unfold Buffer.setClip
  by_cases h1 : buf.inBounds x y <;> by_cases h2 : buf.inBounds x' y <;>
    simp only [Buffer.inBounds_set, h1, h2, if_true, if_false, ite_true, ite_false]
  have hidx : buf.index_of x y ≠ buf.index_of x' y :=
    fun h => hne (Buffer.index_of_inj h1 h2 h).1
  show ({ buf with content :=
      (buf.content.set (buf.index_of x y) ⟨c, st⟩).set (buf.index_of x' y) ⟨c', st'⟩ } : Buffer)
    = { buf with content :=
      (buf.content.set (buf.index_of x' y) ⟨c', st'⟩).set (buf.index_of x y) ⟨c, st⟩ }
  rw [List.set_comm _ _ _ hidx]

lemma Buffer.setClip_idem {buf : Buffer} {x y : Nat} {c : Char} {st : Style} :
    (buf.setClip x y c st).setClip x y c st = buf.setClip x y c st := by
  unfold Buffer.setClip
  by_cases h : buf.inBounds x y <;>
    simp only [Buffer.inBounds_set, h, if_true, if_false, ite_true, ite_false]
  show ({ buf with content :=
      (buf.content.set (buf.index_of x y) ⟨c, st⟩).set (buf.index_of x y) ⟨c, st⟩ } : Buffer)
    = { buf with content := buf.content.set (buf.index_of x y) ⟨c, st⟩ }
  rw [List.set_set]

lemma Buffer.set_string_setClip_comm {y : Nat} {c : Char} {st st' : Style} :
    ∀ (s : List Char) (x x0 : Nat), x0 < x → ∀ (buf : Buffer),
      (buf.set_string x y s st).setClip x0 y c st'
        = (buf.setClip x0 y c st').set_string x y s st := by
  intro s
  induction s with
  | nil => intro x x0 _ buf; rfl
  | cons c2 rest ih =>
      intro x x0 hlt buf
      rw [Buffer.set_string, Buffer.set_string]
      rw [ih (x + 1) x0 (by omega)]
      rw [Buffer.setClip_comm (by omega)]

lemma Buffer.set_string_idem {y : Nat} {st : Style} :
    ∀ (s : List Char) (x : Nat) (buf : Buffer),
      (buf.set_string x y s st).set_string x y s st = buf.set_string x y s st := by
  intro s
  induction s with
  | nil => intro x buf; rfl
  | cons c rest ih =>
      intro x buf
      have hB : buf.set_string x y (c :: rest) st
          = (buf.setClip x y c st).set_string (x + 1) y rest st := by
        rw [Buffer.set_string]
      rw [hB]
      have hB2 : ((buf.setClip x y c st).set_string (x + 1) y rest st).set_string x y
            (c :: rest) st
          = (((buf.setClip x y c st).set_string (x + 1) y rest st).setClip x y c
              st).set_string (x + 1) y rest st := by
        rw [Buffer.set_string]
      rw [hB2]
      rw [Buffer.set_string_setClip_comm rest (x + 1) x (by omega)]
      rw [Buffer.setClip_idem]
      exact ih (x + 1) (buf.setClip x y c st)

/-! Claim theorems. -/

/-- C1: for every type implementing `Render` (in particular the string
types), rendering through the consuming `Widget` interface (the blanket
`impl<R: Render> Widget for &R` and the direct `Widget` impls for `&str`
and `String`) and calling `Render::render` on a borrow with an equal
starting buffer and equal rect produce identical resulting buffer
contents. -/
theorem C1_bridge_refinement :
    (∀ (α : Type) (render : α → Rect → Context → Context) (w : α) (area : Rect) (buf : Buffer),
      widgetOfRender render w area buf = (render w area (Context.from_buffer buf)).buffer)
    ∧ (∀ (s : List Char) (area : Rect) (buf : Buffer),
      strWidget s area buf = (strRender s area (Context.from_buffer buf)).buffer)
    ∧ (∀ (s : List Char) (area : Rect) (buf : Buffer),
      stringWidget s area buf = (stringRender s area (Context.from_buffer buf)).buffer) :=
  ⟨fun _ _ _ _ _ => rfl, fun _ _ _ => rfl, fun _ _ _ => rfl⟩

/-- C2: for every `Render` implementation, rendering the value `None` of
type `Option<R>` leaves the buffer (indeed, the whole context) completely
unchanged. -/
theorem C2_option_none_noop :
    ∀ (α : Type) (render : α → Rect → Context → Context) (area : Rect) (ctx : Context),
      optionRender render (none : Option α) area ctx = ctx :=
  fun _ _ _ _ => rfl

/-- C3: for every `Render` implementation and drawable `w`, rendering
`Some(w)` produces exactly the same resulting buffer as rendering `w`
directly with the same rect and buffer. -/
theorem C3_option_some_delegates :
    ∀ (α : Type) (render : α → Rect → Context → Context) (w : α) (area : Rect) (ctx : Context),
      optionRender render (some w) area ctx = render w area ctx :=
  fun _ _ _ _ _ => rfl

/-- C7: the module's reference renders are deterministic pure functions of
their inputs and do not mutate the drawable, so repeating a render call
reproduces its output: rendering the same text (or optional text) twice in
a row onto the buffer yields exactly the buffer of the single render, for
`&str`, `String` and the `Option` adapter over them. -/
theorem C7_render_idempotent :
    (∀ (s : List Char) (area : Rect) (ctx : Context),
      strRender s area (strRender s area ctx) = strRender s area ctx)
    ∧ (∀ (s : List Char) (area : Rect) (ctx : Context),
      stringRender s area (stringRender s area ctx) = stringRender s area ctx)
    ∧ (∀ (o : Option (List Char)) (area : Rect) (ctx : Context),
      optionRender strRender o area (optionRender strRender o area ctx)
        = optionRender strRender o area ctx) := by
  refine ⟨?_, ?_, ?_⟩
  · intro s area ctx
    exact congrArg Context.mk (Buffer.set_string_idem s area.x ctx.buffer)
  · intro s area ctx
    exact congrArg Context.mk (Buffer.set_string_idem s area.x ctx.buffer)
  · intro o area ctx
    match o with
    | none => rfl
    | some s => exact congrArg Context.mk (Buffer.set_string_idem s area.x ctx.buffer)

/-- C8: the default implementation of `Render::render` (the empty default
body in the trait declaration) performs no mutation: for every rect and
buffer it leaves the buffer exactly as it was. -/
theorem C8_render_default_noop :
    ∀ (area : Rect) (ctx : Context), Render.renderDefault area ctx = ctx :=
  fun _ _ => rfl

/-- C9: the default implementations of `RenderWithState::render` and
`RenderMut::render_mut` are also no-ops: for every rect, buffer, state
value (and, for `RenderMut`, drawable value) they leave buffer, state and
drawable completely unchanged. -/
theorem C9_stateful_defaults_noop :
    (∀ (σ : Type) (area : Rect) (ctx : Context) (state : σ),
      RenderWithState.renderDefault area ctx state = (ctx, state))
    ∧ (∀ (α : Type) (w : α) (area : Rect) (ctx : Context),
      RenderMut.renderMutDefault w area ctx = (w, ctx)) :=
  ⟨fun _ _ _ _ => rfl, fun _ _ _ _ => rfl⟩

/-- Character list of the text "Hello". -/
def hello : List Char := ['H', 'e', 'l', 'l', 'o']

/-- C4: rendering the text "Hello" (as `&str` or `String`; all render
paths agree) into a region at origin `(0, 0)` of width at least 5, on a
buffer whose area starts at the origin and covers those cells, writes
exactly the characters `H`, `e`, `l`, `l`, `o` at cells `(0,0)` through
`(4,0)` with the default style, and every other cell of the buffer —
including the remainder of the first row of a wider region — keeps its
prior content. -/
theorem C4_hello_render (area : Rect) (buf : Buffer)
    (harea : area.x = 0 ∧ area.y = 0 ∧ 5 ≤ area.width)
    (hbuf : buf.area.x = 0 ∧ buf.area.y = 0 ∧ 5 ≤ buf.area.width ∧ 1 ≤ buf.area.height)
    (hwf : buf.wf) :
    strWidget hello area buf = stringWidget hello area buf
    ∧ (strWidget hello area buf).get 0 0 = ⟨'H', Style.default⟩
    ∧ (strWidget hello area buf).get 1 0 = ⟨'e', Style.default⟩
    ∧ (strWidget hello area buf).get 2 0 = ⟨'l', Style.default⟩
    ∧ (strWidget hello area buf).get 3 0 = ⟨'l', Style.default⟩
    ∧ (strWidget hello area buf).get 4 0 = ⟨'o', Style.default⟩
    ∧ ∀ x y, buf.inBounds x y → (y ≠ 0 ∨ 5 ≤ x) →
        (strWidget hello area buf).get x y = buf.get x y := by
  obtain ⟨hax, hay, haw⟩ := harea
  obtain ⟨hbx, hby, hbw, hbh⟩ := hbuf
  have hmain : strWidget hello area buf = buf.set_string 0 0 hello Style.default := by
    show buf.set_string area.x area.y hello Style.default = _
    rw [hax, hay]
  have hin : ∀ k, k < 5 → buf.inBounds k 0 := by
    intro k hk
    unfold Buffer.inBounds
    omega
  refine ⟨rfl, ?_, ?_, ?_, ?_, ?_, ?_⟩
  · rw [hmain]
    exact Buffer.get_set_string_hit hello 0 0 buf hwf (hin 0 (by omega)) (by simp [hello])
  · rw [hmain]
    exact Buffer.get_set_string_hit hello 0 1 buf hwf (hin 1 (by omega)) (by simp [hello])
  · rw [hmain]
    exact Buffer.get_set_string_hit hello 0 2 buf hwf (hin 2 (by omega)) (by simp [hello])
  · rw [hmain]
    exact Buffer.get_set_string_hit hello 0 3 buf hwf (hin 3 (by omega)) (by simp [hello])
  · rw [hmain]
    exact Buffer.get_set_string_hit hello 0 4 buf hwf (hin 4 (by omega)) (by simp [hello])
  · intro x y hxy hcond
    rw [hmain]
    refine Buffer.get_set_string_notouch hello 0 buf hxy ?_
    rcases hcond with h | h
    · exact Or.inl h
    · exact Or.inr (Or.inr (by simpa [hello] using h))

/-- Witness for C4 at a concrete 6-wide, 1-tall buffer of default cells:
the hypotheses hold and the written and untouched cells are as stated. -/
theorem C4_hello_render_witness :
    ((⟨0, 0, 6, 1⟩ : Rect).x = 0 ∧ (⟨0, 0, 6, 1⟩ : Rect).y = 0 ∧ 5 ≤ (⟨0, 0, 6, 1⟩ : Rect).width)
    ∧ (⟨⟨0, 0, 6, 1⟩, List.replicate 6 Cell.default⟩ : Buffer).wf
    ∧ (strWidget hello ⟨0, 0, 6, 1⟩ ⟨⟨0, 0, 6, 1⟩, List.replicate 6 Cell.default⟩).get 0 0
        = ⟨'H', Style.default⟩
    ∧ (strWidget hello ⟨0, 0, 6, 1⟩ ⟨⟨0, 0, 6, 1⟩, List.replicate 6 Cell.default⟩).get 5 0
        = (⟨⟨0, 0, 6, 1⟩, List.replicate 6 Cell.default⟩ : Buffer).get 5 0 := by
  refine ⟨by decide, by decide, ?_, ?_⟩
  · exact (C4_hello_render ⟨0, 0, 6, 1⟩ ⟨⟨0, 0, 6, 1⟩, List.replicate 6 Cell.default⟩
      (by decide) (by decide) (by decide)).2.1
  · exact (C4_hello_render ⟨0, 0, 6, 1⟩ ⟨⟨0, 0, 6, 1⟩, List.replicate 6 Cell.default⟩
      (by decide) (by decide) (by decide)).2.2.2.2.2.2 5 0 (by decide) (by decide)

/-- C5 counterexample: the claim that a render call mutates cells only
within the region's bounds — in particular that a zero-width, zero-height
region leaves the buffer unchanged — is false on the code: the text render
passes only the region's position to the surface's write operation, so
rendering `"A"` into the empty region at the origin of a 1×1 buffer does
change the buffer. -/
theorem C5_region_confinement_counterexample :
    (strRender ['A'] ⟨0, 0, 0, 0⟩
        (Context.from_buffer ⟨⟨0, 0, 1, 1⟩, [Cell.default]⟩)).buffer
      ≠ (⟨⟨0, 0, 1, 1⟩, [Cell.default]⟩ : Buffer) := by
  decide

/-- C5 amended: the module's text renders use only the region's position,
never its width or height — so a zero-sized region renders exactly as a
region of any other size at the same position, writes are confined to the
single row `area.y` at columns `area.x` onward and clipped at the
buffer's (not the region's) bounds, and the absent-`Option` render does
leave the buffer unchanged. -/
theorem C5_region_confinement_amended :
    (∀ (s : List Char) (x y w h w' h' : Nat) (ctx : Context),
      strRender s ⟨x, y, w, h⟩ ctx = strRender s ⟨x, y, w', h'⟩ ctx)
    ∧ (∀ (s : List Char) (x y w h w' h' : Nat) (ctx : Context),
      stringRender s ⟨x, y, w, h⟩ ctx = stringRender s ⟨x, y, w', h'⟩ ctx)
    ∧ (∀ (s : List Char) (area : Rect) (ctx : Context) (x y : Nat),
      ctx.buffer.inBounds x y → (y ≠ area.y ∨ x < area.x) →
      (strRender s area ctx).buffer.get x y = ctx.buffer.get x y)
    ∧ (∀ (α : Type) (render : α → Rect → Context → Context) (area : Rect) (ctx : Context),
      optionRender render (none : Option α) area ctx = ctx) := by
  refine ⟨fun _ _ _ _ _ _ _ _ => rfl, fun _ _ _ _ _ _ _ _ => rfl, ?_, fun _ _ _ _ => rfl⟩
  intro s area ctx x y hin hcond
  refine Buffer.get_set_string_notouch s area.x ctx.buffer hin ?_
  rcases hcond with h | h
  · exact Or.inl h
  · exact Or.inr (Or.inl h)

/-- Witness for the amended C5 at a concrete input: rendering `"A"` at
region position `(1, 1)` of a 2×2 buffer leaves the in-bounds cell
`(0, 0)` (a different row) unchanged. -/
theorem C5_region_confinement_amended_witness :
    (Context.from_buffer ⟨⟨0, 0, 2, 2⟩, List.replicate 4 Cell.default⟩).buffer.inBounds 0 0
    ∧ (strRender ['A'] ⟨1, 1, 0, 0⟩
          (Context.from_buffer ⟨⟨0, 0, 2, 2⟩, List.replicate 4 Cell.default⟩)).buffer.get 0 0
        = (Context.from_buffer ⟨⟨0, 0, 2, 2⟩, List.replicate 4 Cell.default⟩).buffer.get 0 0 :=
  ⟨by decide,
    C5_region_confinement_amended.2.2.1 ['A'] ⟨1, 1, 0, 0⟩
      (Context.from_buffer ⟨⟨0, 0, 2, 2⟩, List.replicate 4 Cell.default⟩) 0 0
      (by decide) (by decide)⟩

/-- C6: no render operation of the module can fail; each is a total
function returning only the updated buffer, the buffer keeps its area and
cell count (writes never grow or move it), and writes falling outside the
buffer's bounds are silently dropped: a render aimed entirely outside the
buffer's rows returns the buffer unchanged, and the default trait bodies
return their inputs unchanged. -/
theorem C6_total_silent_clipping :
    ∀ (s : List Char) (area : Rect) (ctx : Context),
      ((strRender s area ctx).buffer.area = ctx.buffer.area
        ∧ (strRender s area ctx).buffer.content.length = ctx.buffer.content.length)
      ∧ ((stringRender s area ctx).buffer.area = ctx.buffer.area
        ∧ (stringRender s area ctx).buffer.content.length = ctx.buffer.content.length)
      ∧ ((area.y < ctx.buffer.area.y ∨ ctx.buffer.area.y + ctx.buffer.area.height ≤ area.y) →
          strRender s area ctx = ctx ∧ stringRender s area ctx = ctx)
      ∧ Render.renderDefault area ctx = ctx
      ∧ RenderMut.renderMutDefault s area ctx = (s, ctx) := by
  intro s area ctx
  refine ⟨⟨?_, ?_⟩, ⟨?_, ?_⟩, ?_, rfl, rfl⟩
  · exact Buffer.area_set_string s area.x ctx.buffer
  · exact Buffer.length_set_string s area.x ctx.buffer
  · exact Buffer.area_set_string s area.x ctx.buffer
  · exact Buffer.length_set_string s area.x ctx.buffer
  · intro hy
    constructor
    · exact congrArg Context.mk (Buffer.set_string_out_of_rows hy s area.x)
    · exact congrArg Context.mk (Buffer.set_string_out_of_rows hy s area.x)

/-- Witness for C6 at a concrete input: rendering `"A"` at row 5 of a 1×1
buffer is silently dropped, returning the context unchanged. -/
theorem C6_total_silent_clipping_witness :
    ((⟨5, 5, 1, 1⟩ : Rect).y < (⟨⟨0, 0, 1, 1⟩, [Cell.default]⟩ : Buffer).area.y
      ∨ (⟨⟨0, 0, 1, 1⟩, [Cell.default]⟩ : Buffer).area.y
          + (⟨⟨0, 0, 1, 1⟩, [Cell.default]⟩ : Buffer).area.height ≤ (⟨5, 5, 1, 1⟩ : Rect).y)
    ∧ strRender ['A'] ⟨5, 5, 1, 1⟩ (Context.from_buffer ⟨⟨0, 0, 1, 1⟩, [Cell.default]⟩)
        = Context.from_buffer ⟨⟨0, 0, 1, 1⟩, [Cell.default]⟩ :=
  ⟨by decide,
    ((C6_total_silent_clipping ['A'] ⟨5, 5, 1, 1⟩
      (Context.from_buffer ⟨⟨0, 0, 1, 1⟩, [Cell.default]⟩)).2.2.1 (by decide)).1⟩

/-- C10: for every string, region and buffer, the text render
implementations mutate only cells of the single row `area.y`, starting at
column `area.x` and ending before `area.x + length`, silently clipped at
the buffer's bounds: the buffer's area and cell count are preserved (text
never wraps onto another row), and every in-bounds cell on another row,
left of `area.x`, or at or beyond `area.x + length` keeps its prior
content — for both the `&str` and the `String` implementation. -/
theorem C10_row_confinement :
    ∀ (s : List Char) (area : Rect) (ctx : Context),
      ((strRender s area ctx).buffer.area = ctx.buffer.area
        ∧ (strRender s area ctx).buffer.content.length = ctx.buffer.content.length)
      ∧ (∀ x y, ctx.buffer.inBounds x y →
          (y ≠ area.y ∨ x < area.x ∨ area.x + s.length ≤ x) →
          (strRender s area ctx).buffer.get x y = ctx.buffer.get x y)
      ∧ (∀ x y, ctx.buffer.inBounds x y →
          (y ≠ area.y ∨ x < area.x ∨ area.x + s.length ≤ x) →
          (stringRender s area ctx).buffer.get x y = ctx.buffer.get x y) := by
  intro s area ctx
  refine ⟨⟨Buffer.area_set_string s area.x ctx.buffer,
    Buffer.length_set_string s area.x ctx.buffer⟩, ?_, ?_⟩
  · intro x y hin hcond
    exact Buffer.get_set_string_notouch s area.x ctx.buffer hin hcond
  · intro x y hin hcond
    exact Buffer.get_set_string_notouch s area.x ctx.buffer hin hcond

/-- Witness for C10 at a concrete input: rendering `"AB"` at position
`(0, 0)` of a 3×1 buffer leaves the cell `(2, 0)` beyond the text
unchanged. -/
theorem C10_row_confinement_witness :
    (Context.from_buffer ⟨⟨0, 0, 3, 1⟩, List.replicate 3 Cell.default⟩).buffer.inBounds 2 0
    ∧ (strRender ['A', 'B'] ⟨0, 0, 3, 1⟩
          (Context.from_buffer ⟨⟨0, 0, 3, 1⟩, List.replicate 3 Cell.default⟩)).buffer.get 2 0
        = (Context.from_buffer ⟨⟨0, 0, 3, 1⟩, List.replicate 3 Cell.default⟩).buffer.get 2 0 :=
  ⟨by decide,
    (C10_row_confinement ['A', 'B'] ⟨0, 0, 3, 1⟩
      (Context.from_buffer ⟨⟨0, 0, 3, 1⟩, List.replicate 3 Cell.default⟩)).2.1 2 0
      (by decide) (by decide)⟩
